import Mathlib

/-!
Shallow embedding of `span_utils.py` from the two snapshots
`results/loss1/ft_detach-2024_02_19_02_05_18` and
`results/loss2/duration2-2024_03_14_03_25_06`.

Modelling conventions:
* torch float tensors are modelled by exact rationals (`ℚ`); 1-D tensors by
  `List ℚ`, 2-D by `List (List ℚ)`, 3-D by `List (List (List ℚ))`.
* float division by zero (which torch turns into `inf`/`nan`) falls under
  Lean's convention `q / 0 = 0`.
* a failing `assert` is modelled by returning `none` from an `Option`.
* `torch.round` rounds half to even (`torchRound`); `.int()` truncates
  toward zero (`truncInt`); tensor/list slicing `l[st:stop]` follows Python
  semantics, negative indices counting from the end (`pySlice`).
-/

/-- A span in xx (start, end) or cxw (center, width) format, one row of a
`(N, 2)` tensor. -/
abbrev Span := ℚ × ℚ

/-- `torch.round`: round half to even. -/
def torchRound (x : ℚ) : ℤ :=
  if x - ⌊x⌋ < 1/2 then ⌊x⌋
  else if x - ⌊x⌋ = 1/2 then (if ⌊x⌋ % 2 = 0 then ⌊x⌋ else ⌊x⌋ + 1)
  else ⌊x⌋ + 1

/-- `Tensor.int()`: truncation toward zero. -/
def truncInt (x : ℚ) : ℤ :=
  if 0 ≤ x then ⌊x⌋ else ⌈x⌉

/-- `.int()` applied to both entries of a span row. -/
def intSpan (s : Span) : ℤ × ℤ := (truncInt s.1, truncInt s.2)

/-- Python/torch slice `l[st:stop]` (step 1): negative indices count from the
end, then both bounds are clamped into `[0, len]`. -/
def pySlice {α : Type} (l : List α) (st stop : ℤ) : List α :=
  let n : ℤ := l.length
  let s := if st < 0 then max (n + st) 0 else min st n
  let e := if stop < 0 then max (n + stop) 0 else min stop n
  (l.drop s.toNat).take (e - s).toNat

/-- `Tensor.mean()` of a 1-D tensor; the empty tensor gives `nan` in torch,
here `0/0 = 0`. -/
def listMean (l : List ℚ) : ℚ := l.sum / l.length

/-- `shape[1]` of a 2-D tensor modelled as a list of rows. -/
def shape1 {α : Type} (m : List (List α)) : ℕ := (m.headD []).length

/-- `torch.diag` of an `(N, M)` matrix: the length-`min N M` main diagonal. -/
def diag (m : List (List ℚ)) : List ℚ :=
  (List.range (min m.length (shape1 m))).map (fun i => (m.getD i []).getD i 0)

/-- The grouping loop `for b, i in enumerate(idx): buckets[i].append(xs[b])`
shared by the loss terms: bucket `i` collects, in batch order, the rows `b`
with `idx[b] = i`.  (An `idx` entry `≥ bsz` would raise in Python; here the
row is dropped, callers only use in-range indices.) -/
def group {α : Type} (idx : List ℕ) (xs : List α) (bsz : ℕ) : List (List α) :=
  (List.range bsz).map (fun i => ((idx.zip xs).filter (fun p => p.1 == i)).map Prod.snd)

/-- `span_xx_to_cxw`: (st, ed) ↦ (center, width), one row. -/
def span_xx_to_cxw (s : Span) : Span :=
  ((s.1 + s.2) * (1/2), s.2 - s.1)

/-- `span_cxw_to_xx`: (center, width) ↦ (st, ed), one row. -/
def span_cxw_to_xx (s : Span) : Span :=
  (s.1 - (1/2) * s.2, s.1 + (1/2) * s.2)

/-- One entry of the intersection matrix of `temporal_iou`:
`(right - left).clamp(min=0)`. -/
def interSpan (a b : Span) : ℚ :=
  max 0 (min a.2 b.2 - max a.1 b.1)

/-- One entry of the union matrix of `temporal_iou`:
`areas1 + areas2 - inter`. -/
def unionSpan (a b : Span) : ℚ :=
  (a.2 - a.1) + (b.2 - b.1) - interSpan a b

/-- One entry of the IoU matrix of `temporal_iou`: `inter / union`. -/
def iou1 (a b : Span) : ℚ := interSpan a b / unionSpan a b

/-- `temporal_iou(spans1, spans2) -> (iou, union)`, both `(N, M)`. -/
def temporal_iou (s1 s2 : List Span) : List (List ℚ) × List (List ℚ) :=
  (s1.map (fun a => s2.map (fun b => iou1 a b)),
   s1.map (fun a => s2.map (fun b => unionSpan a b)))

/-- One entry of the enclosing-area matrix of `generalized_temporal_iou`:
`(right - left).clamp(min=0)` with `right = max` of ends, `left = min` of
starts. -/
def encloseSpan (a b : Span) : ℚ :=
  max 0 (max a.2 b.2 - min a.1 b.1)

/-- One entry of the GIoU matrix:
`iou - (enclosing_area - union) / enclosing_area`. -/
def giou1 (a b : Span) : ℚ :=
  iou1 a b - (encloseSpan a b - unionSpan a b) / encloseSpan a b

/-- The precondition asserted in `generalized_temporal_iou` and `new_loss`:
`(spans[:, 1] >= spans[:, 0]).all()`. -/
def validSpans (s : List Span) : Bool := s.all (fun p => p.1 ≤ p.2)

/-- `generalized_temporal_iou(spans1, spans2)`: asserts `end ≥ start` for all
rows of both inputs (a failed assert is `none`), then returns the GIoU
matrix. -/
def generalized_temporal_iou (s1 s2 : List Span) : Option (List (List ℚ)) :=
  if validSpans s1 && validSpans s2 then
    some (s1.map (fun a => s2.map (fun b => giou1 a b)))
  else none

/-- The clamp applied to a mapped predicted (src) span in `S_Diff`,
`S_GT_P` and `S_Q_P` of the loss1 snapshot and in `S_Diff`/`S_Q_P` of loss2:
`st, end = min(max(st, 0), vid_len - 1), min(end, vid_len - 1)`. -/
def sdiffSrcClamp (sp : ℤ × ℤ) (vidLen : ℤ) : ℤ × ℤ :=
  (min (max sp.1 0) (vidLen - 1), min sp.2 (vidLen - 1))

/-- The clamp applied to a mapped ground-truth (tgt) span in `S_Diff` and
`S_GT_P` of the loss1 snapshot:
`st, end = min(st, vid_len - 1), min(end, vid_len - 1)` — the start is NOT
clamped from below. -/
def sdiffTgtClamp (sp : ℤ × ℤ) (vidLen : ℤ) : ℤ × ℤ :=
  (min sp.1 (vidLen - 1), min sp.2 (vidLen - 1))

/-- The rounding step of loss1's `new_loss`:
`torch.round(spans * vid_clip_len)` applied to one span row (result kept as a
float tensor, hence back in `ℚ`). -/
def roundSpan (s : Span) (l : ℕ) : Span :=
  (((torchRound (s.1 * l) : ℤ) : ℚ), ((torchRound (s.2 * l) : ℤ) : ℚ))

namespace Loss1

/-- `S_Diff` of the loss1 snapshot: group the (already rounded) spans per
video via `idx` (with `.int()` conversion), clamp each predicted span with
`sdiffSrcClamp` and each ground-truth span with `sdiffTgtClamp`, take the
mean query-similarity over each index range, and combine the absolute
difference of the two means with the paired IoU:
`(1 - iou) * |src_sim - tgt_sim|`. -/
def S_Diff (iou : List ℚ) (spans1 spans2 : List Span)
    (logits : List (List ℚ)) (idx : List ℕ) : List ℚ :=
  let bsz := logits.length
  let vidLen : ℤ := (shape1 logits : ℤ)
  let src := group idx (spans1.map intSpan) bsz
  let tgt := group idx (spans2.map intSpan) bsz
  let sim_diffs := (List.range bsz).flatMap (fun i =>
    ((src.getD i []).zip (tgt.getD i [])).map (fun p =>
      let s := sdiffSrcClamp p.1 vidLen
      let t := sdiffTgtClamp p.2 vidLen
      |listMean (pySlice (logits.getD i []) s.1 (s.2 + 1)) -
        listMean (pySlice (logits.getD i []) t.1 (t.2 + 1))|))
  List.zipWith (fun io d => (1 - io) * d) iou sim_diffs

/-- `S_GT_P` of the loss1 snapshot: slice the frame-to-frame similarity
matrix with predicted rows and ground-truth columns, flatten, take the mean,
and return `(1 - iou) * (1 - i2i_sim)`. -/
def S_GT_P (iou : List ℚ) (spans1 spans2 : List Span)
    (v2v_sims : List (List (List ℚ))) (idx : List ℕ) : List ℚ :=
  let bsz := v2v_sims.length
  let vidLen : ℤ := (shape1 v2v_sims : ℤ)
  let src := group idx (spans1.map intSpan) bsz
  let tgt := group idx (spans2.map intSpan) bsz
  let i2i_sims := (List.range bsz).flatMap (fun i =>
    ((src.getD i []).zip (tgt.getD i [])).map (fun p =>
      let s := sdiffSrcClamp p.1 vidLen
      let t := sdiffTgtClamp p.2 vidLen
      let rows := pySlice (v2v_sims.getD i []) s.1 (s.2 + 1)
      listMean ((rows.map (fun row => pySlice row t.1 (t.2 + 1))).flatten)))
  List.zipWith (fun io s => (1 - io) * (1 - s)) iou i2i_sims

/-- `S_Q_P` of the loss1 snapshot: mean query-similarity over the clamped
predicted index range only (the ground truth never enters), combined as
`(1 - iou) * (1 - src_sim)`. -/
def S_Q_P (iou : List ℚ) (spans : List Span)
    (logits : List (List ℚ)) (idx : List ℕ) : List ℚ :=
  let bsz := logits.length
  let vidLen : ℤ := (shape1 logits : ℤ)
  let src := group idx (spans.map intSpan) bsz
  let t2i_sims := (List.range bsz).flatMap (fun i =>
    (src.getD i []).map (fun sp =>
      let s := sdiffSrcClamp sp vidLen
      listMean (pySlice (logits.getD i []) s.1 (s.2 + 1))))
  List.zipWith (fun io s => (1 - io) * (1 - s)) iou t2i_sims

/-- `new_loss` of the loss1 snapshot.  The `sims` payload is modelled by its
two possible components `logits` (query-to-clip sequence, shape `(B, L)`) and
`vid_feat` (clip-to-clip matrix, shape `(B, L, L)`); the branch on
`2 ∈ iou_loss_types` selects which one supplies `vid_clip_len`.  The paired
IoU is the diagonal of `temporal_iou`; the spans are scaled by
`vid_clip_len` and rounded, the `assert end ≥ start` on the rounded spans is
a failed-`assert` (`none`) check, the base loss is `1 - iou`, and each
enabled term id adds its term elementwise. -/
def new_loss (iou_loss_types : List ℕ) (spans1 spans2 : List Span)
    (logits : List (List ℚ)) (vid_feat : List (List (List ℚ)))
    (idx : List ℕ) : Option (List ℚ × List ℚ) :=
  let iou := diag (temporal_iou spans1 spans2).1
  let vid_clip_len : ℕ :=
    if 2 ∈ iou_loss_types then shape1 vid_feat else shape1 logits
  let spans1r := spans1.map (fun s => roundSpan s vid_clip_len)
  let spans2r := spans2.map (fun s => roundSpan s vid_clip_len)
  if validSpans spans1r && validSpans spans2r then
    let base := iou.map (fun q => 1 - q)
    let l1 := if 1 ∈ iou_loss_types then
        List.zipWith (· + ·) base (S_Diff iou spans1r spans2r logits idx) else base
    let l2 := if 2 ∈ iou_loss_types then
        List.zipWith (· + ·) l1 (S_GT_P iou spans1r spans2r vid_feat idx) else l1
    let l3 := if 3 ∈ iou_loss_types then
        List.zipWith (· + ·) l2 (S_Q_P iou spans1r logits idx) else l2
    some (l3, iou)
  else none

end Loss1

namespace Loss2

/-- The span-to-clip-index mapping of loss2's `new_loss`:
`torch.clamp(torch.round(span * l_clip), min=0, max=l_clip - 1).int()`,
applied to both entries of the row (`torch.clamp` takes `max` with the lower
bound and then `min` with the upper bound; `.int()` is exact on the already
integral rounded values). -/
def mapSpan (s : Span) (l_clip : ℤ) : ℤ × ℤ :=
  (min (max (torchRound (s.1 * l_clip)) 0) (l_clip - 1),
   min (max (torchRound (s.2 * l_clip)) 0) (l_clip - 1))

/-- `S_Diff` of the loss2 snapshot: same computation as loss1's but on
already grouped per-video index spans (the grouping moved into `new_loss`). -/
def S_Diff (iou : List ℚ) (src_spans tgt_spans : List (List (ℤ × ℤ)))
    (logits : List (List ℚ)) : List ℚ :=
  let bsz := logits.length
  let vidLen : ℤ := (shape1 logits : ℤ)
  let sim_diffs := (List.range bsz).flatMap (fun i =>
    ((src_spans.getD i []).zip (tgt_spans.getD i [])).map (fun p =>
      let s := sdiffSrcClamp p.1 vidLen
      let t := sdiffTgtClamp p.2 vidLen
      |listMean (pySlice (logits.getD i []) s.1 (s.2 + 1)) -
        listMean (pySlice (logits.getD i []) t.1 (t.2 + 1))|))
  List.zipWith (fun io d => (1 - io) * d) iou sim_diffs

/-- `S_GT_P` of the loss2 snapshot: the per-span clamps are commented out in
this snapshot, so the raw mapped indices slice the similarity matrix
directly (Python slice semantics). -/
def S_GT_P (iou : List ℚ) (src_spans tgt_spans : List (List (ℤ × ℤ)))
    (v2v_sims : List (List (List ℚ))) : List ℚ :=
  let bsz := v2v_sims.length
  let i2i_sims := (List.range bsz).flatMap (fun i =>
    ((src_spans.getD i []).zip (tgt_spans.getD i [])).map (fun p =>
      let rows := pySlice (v2v_sims.getD i []) p.1.1 (p.1.2 + 1)
      listMean ((rows.map (fun row => pySlice row p.2.1 (p.2.2 + 1))).flatten)))
  List.zipWith (fun io s => (1 - io) * (1 - s)) iou i2i_sims

/-- `S_Q_P` of the loss2 snapshot, on already grouped spans. -/
def S_Q_P (iou : List ℚ) (src_spans : List (List (ℤ × ℤ)))
    (logits : List (List ℚ)) : List ℚ :=
  let bsz := logits.length
  let vidLen : ℤ := (shape1 logits : ℤ)
  let t2i_sims := (List.range bsz).flatMap (fun i =>
    (src_spans.getD i []).map (fun sp =>
      let s := sdiffSrcClamp sp vidLen
      listMean (pySlice (logits.getD i []) s.1 (s.2 + 1))))
  List.zipWith (fun io s => (1 - io) * (1 - s)) iou t2i_sims

/-- `new_loss` of the loss2 snapshot.  Differences from loss1: the
`end ≥ start` assert runs on the original normalized spans; the index
mapping is per video, with `l_clip = durations[idx[b]] // 2` (Python floor
division; `durations` are whole numbers of seconds, modelled in `ℤ`) and
clamped rounding via `mapSpan`; and the result carries the grouped
diagnostics `(src_spans, tgt_spans, ious, sim_losses)`. -/
def new_loss (iou_loss_types : List ℕ) (spans1 spans2 : List Span)
    (logits : List (List ℚ)) (vid_feat : List (List (List ℚ)))
    (idx : List ℕ) (durations : List ℤ) :
    Option (List ℚ × List (List (ℤ × ℤ)) × List (List (ℤ × ℤ)) ×
            List (List ℚ) × List (List ℚ)) :=
  let iou := diag (temporal_iou spans1 spans2).1
  let bsz : ℕ := if 2 ∈ iou_loss_types then vid_feat.length else logits.length
  if validSpans spans1 && validSpans spans2 then
    let src_spans := group idx
      (List.zipWith (fun i s => mapSpan s (durations.getD i 0 / 2)) idx spans1) bsz
    let tgt_spans := group idx
      (List.zipWith (fun i s => mapSpan s (durations.getD i 0 / 2)) idx spans2) bsz
    let base := iou.map (fun q => 1 - q)
    let l1 := if 1 ∈ iou_loss_types then
        List.zipWith (· + ·) base (S_Diff iou src_spans tgt_spans logits) else base
    let l2 := if 2 ∈ iou_loss_types then
        List.zipWith (· + ·) l1 (S_GT_P iou src_spans tgt_spans vid_feat) else l1
    let l3 := if 3 ∈ iou_loss_types then
        List.zipWith (· + ·) l2 (S_Q_P iou src_spans logits) else l2
    some (l3, src_spans, tgt_spans, group idx iou bsz, group idx l3 bsz)
  else none

end Loss2

/-! ## Helper lemmas -/

theorem validSpans_iff (s : List Span) :
    validSpans s = true ↔ ∀ p ∈ s, p.1 ≤ p.2 := by
  simp [validSpans, List.all_eq_true, decide_eq_true_iff]

theorem getD_map_lt {α β : Type} (l : List α) (f : α → β) (i : ℕ)
    (h : i < l.length) (d : β) (d' : α) :
    (l.map f).getD i d = f (l.getD i d') := by
  rw [List.getD_eq_getElem (l.map f) d (by simpa using h),
    List.getD_eq_getElem l d' h, List.getElem_map]

theorem interSpan_nonneg (a b : Span) : 0 ≤ interSpan a b := le_max_left _ _

theorem interSpan_le_left (a b : Span) (ha : a.1 ≤ a.2) (hb : b.1 ≤ b.2) :
    interSpan a b ≤ a.2 - a.1 := by
  have h1 : min a.2 b.2 ≤ a.2 := min_le_left _ _
  have h2 : a.1 ≤ max a.1 b.1 := le_max_left _ _
  have : min a.2 b.2 - max a.1 b.1 ≤ a.2 - a.1 := by linarith
  exact max_le (by linarith) this

theorem interSpan_le_right (a b : Span) (ha : a.1 ≤ a.2) (hb : b.1 ≤ b.2) :
    interSpan a b ≤ b.2 - b.1 := by
  have h1 : min a.2 b.2 ≤ b.2 := min_le_right _ _
  have h2 : b.1 ≤ max a.1 b.1 := le_max_right _ _
  have : min a.2 b.2 - max a.1 b.1 ≤ b.2 - b.1 := by linarith
  exact max_le (by linarith) this

theorem interSpan_le_unionSpan (a b : Span) (ha : a.1 ≤ a.2) (hb : b.1 ≤ b.2) :
    interSpan a b ≤ unionSpan a b := by
  have h1 := interSpan_le_left a b ha hb
  have h2 := interSpan_le_right a b ha hb
  simp only [unionSpan]
  linarith

theorem unionSpan_le_encloseSpan (a b : Span) (ha : a.1 ≤ a.2) (hb : b.1 ≤ b.2) :
    unionSpan a b ≤ encloseSpan a b := by
  have hE : max a.2 b.2 + min a.2 b.2 = a.2 + b.2 := max_add_min _ _
  have hS : max a.1 b.1 + min a.1 b.1 = a.1 + b.1 := max_add_min _ _
  have hM : max a.2 b.2 - min a.1 b.1 ≤ encloseSpan a b := le_max_right _ _
  rcases le_or_lt (min a.2 b.2 - max a.1 b.1) 0 with hm | hm
  · have hz : interSpan a b = 0 := max_eq_left hm
    simp only [unionSpan, hz]
    linarith
  · have hz : interSpan a b = min a.2 b.2 - max a.1 b.1 := max_eq_right hm.le
    simp only [unionSpan, hz]
    linarith

/-! ## Claims -/

/-- C2: `generalized_temporal_iou` hits a failed assertion exactly when some
row of either input has `end < start`; with all rows satisfying `end ≥ start`
it returns normally. -/
theorem c2_giou_assert (s1 s2 : List Span) :
    (generalized_temporal_iou s1 s2).isSome = true ↔
      ((∀ p ∈ s1, p.1 ≤ p.2) ∧ (∀ p ∈ s2, p.1 ≤ p.2)) := by
  rw [← validSpans_iff, ← validSpans_iff]
  unfold generalized_temporal_iou
  rcases h1 : validSpans s1 <;> rcases h2 : validSpans s2 <;> simp [h1, h2]

/-- C3: converting a span from xx to cxw format and back is the identity
(exact over the rationals modelling the floats). -/
theorem c3_roundtrip (s : Span) (h : s.1 ≤ s.2) :
    span_cxw_to_xx (span_xx_to_cxw s) = s := by
  obtain ⟨a, b⟩ := s
  simp only [span_xx_to_cxw, span_cxw_to_xx, Prod.mk.injEq]
  constructor <;> ring

theorem c3_roundtrip_witness :
    ((0:ℚ), (1:ℚ)).1 ≤ ((0:ℚ), (1:ℚ)).2 ∧
      span_cxw_to_xx (span_xx_to_cxw ((0:ℚ), (1:ℚ))) = ((0:ℚ), (1:ℚ)) :=
  ⟨by norm_num, c3_roundtrip ((0:ℚ), (1:ℚ)) (by norm_num)⟩

/-- C7 (counterexample): for the identical *degenerate* valid span `(0, 0)`
(`end ≥ start` holds), the matching IoU entry is not 1: the union is zero and
the division yields `0/0` (`nan` in torch, `0` under the rational model), so
"equals 1.0 for every pair of identical valid spans" fails. -/
theorem c7_degenerate_counterexample :
    ((temporal_iou [((0:ℚ), 0)] [((0:ℚ), 0)]).1.getD 0 []).getD 0 0 ≠ 1 := by
  simp [temporal_iou, iou1, interSpan, unionSpan]

/-- C7 (amended): for every pair of identical *non-degenerate* valid spans
(`end > start`), `temporal_iou` equals 1 at the matching (diagonal) pair
position. -/
theorem c7_identical_iou_one (s : List Span) (i : ℕ) (hi : i < s.length)
    (hlt : (s.getD i (0, 0)).1 < (s.getD i (0, 0)).2) :
    ((temporal_iou s s).1.getD i []).getD i 0 = 1 := by
  set a := s.getD i (0, 0) with ha
  have h1 : (temporal_iou s s).1.getD i [] = s.map (fun b => iou1 a b) := by
    simp only [temporal_iou]
    exact getD_map_lt s _ i hi [] (0, 0)
  rw [h1, getD_map_lt s _ i hi 0 (0, 0), ← ha]
  have hinter : interSpan a a = a.2 - a.1 := by
    simp only [interSpan, min_self, max_self]
    exact max_eq_right (by linarith)
  have hunion : unionSpan a a = a.2 - a.1 := by
    simp only [unionSpan, hinter]; ring
  rw [iou1, hinter, hunion, div_self (by linarith)]

theorem c7_identical_iou_one_witness :
    0 < [((0:ℚ), 1)].length ∧
      (([((0:ℚ), 1)].getD 0 (0, 0)).1 < ([((0:ℚ), 1)].getD 0 (0, 0)).2) ∧
      ((temporal_iou [((0:ℚ), 1)] [((0:ℚ), 1)]).1.getD 0 []).getD 0 0 = 1 :=
  ⟨by norm_num, by norm_num,
    c7_identical_iou_one [((0:ℚ), 1)] 0 (by norm_num) (by norm_num)⟩

/-- C8: the docstring example of `temporal_iou`:
`spans1 = [[0, 0.2], [0.5, 1.0]]`, `spans2 = [[0, 0.3], [0, 1.0]]` give
IoU `[[2/3, 1/5], [0, 1/2]]` (≈ `[[0.667, 0.2], [0.0, 0.5]]`) and union
`[[3/10, 1], [4/5, 1]]` (≈ `[[0.3, 1.0], [0.8, 1.0]]`). -/
theorem c8_docstring_example :
    temporal_iou [((0:ℚ), 1/5), (1/2, 1)] [((0:ℚ), 3/10), (0, 1)] =
      ([[2/3, 1/5], [0, 1/2]], [[3/10, 1], [4/5, 1]]) := by
  simp only [temporal_iou, List.map_cons, List.map_nil, iou1, interSpan,
    unionSpan, Prod.mk.injEq, List.cons.injEq, and_true]
  norm_num

/-- C10: with `end ≥ start` on every row of both inputs, each intersection
entry is non-negative, and wherever the union entry is strictly positive the
corresponding IoU entry returned by `temporal_iou` lies in `[0, 1]`. -/
theorem c10_iou_in_unit_interval (s1 s2 : List Span)
    (h1 : ∀ p ∈ s1, p.1 ≤ p.2) (h2 : ∀ p ∈ s2, p.1 ≤ p.2)
    (i j : ℕ) (hi : i < s1.length) (hj : j < s2.length) :
    0 ≤ interSpan (s1.getD i (0, 0)) (s2.getD j (0, 0)) ∧
    (0 < ((temporal_iou s1 s2).2.getD i []).getD j 0 →
      0 ≤ ((temporal_iou s1 s2).1.getD i []).getD j 0 ∧
      ((temporal_iou s1 s2).1.getD i []).getD j 0 ≤ 1) := by
  set a := s1.getD i (0, 0) with hadef
  set b := s2.getD j (0, 0) with hbdef
  have hma : a ∈ s1 := by rw [hadef, List.getD_eq_getElem s1 _ hi]; exact List.getElem_mem hi
  have hmb : b ∈ s2 := by rw [hbdef, List.getD_eq_getElem s2 _ hj]; exact List.getElem_mem hj
  have hva := h1 a hma
  have hvb := h2 b hmb
  have hiou : ((temporal_iou s1 s2).1.getD i []).getD j 0 = iou1 a b := by
    simp only [temporal_iou]
    rw [getD_map_lt s1 _ i hi [] (0, 0), getD_map_lt s2 _ j hj 0 (0, 0)]
  have hun : ((temporal_iou s1 s2).2.getD i []).getD j 0 = unionSpan a b := by
    simp only [temporal_iou]
    rw [getD_map_lt s1 _ i hi [] (0, 0), getD_map_lt s2 _ j hj 0 (0, 0)]
  refine ⟨interSpan_nonneg a b, fun hpos => ?_⟩
  rw [hun] at hpos
  rw [hiou]
  constructor
  · exact div_nonneg (interSpan_nonneg a b) hpos.le
  · rw [iou1, div_le_one hpos]
    exact interSpan_le_unionSpan a b hva hvb

theorem c10_iou_in_unit_interval_witness :
    (∀ p ∈ [((0:ℚ), 1/2)], p.1 ≤ p.2) ∧ (∀ p ∈ [((1:ℚ)/4, 1)], p.1 ≤ p.2) ∧
      (0 ≤ interSpan ([((0:ℚ), 1/2)].getD 0 (0, 0)) ([((1:ℚ)/4, 1)].getD 0 (0, 0)) ∧
      (0 < ((temporal_iou [((0:ℚ), 1/2)] [((1:ℚ)/4, 1)]).2.getD 0 []).getD 0 0 →
        0 ≤ ((temporal_iou [((0:ℚ), 1/2)] [((1:ℚ)/4, 1)]).1.getD 0 []).getD 0 0 ∧
        ((temporal_iou [((0:ℚ), 1/2)] [((1:ℚ)/4, 1)]).1.getD 0 []).getD 0 0 ≤ 1)) :=
  ⟨by norm_num, by norm_num,
    c10_iou_in_unit_interval [((0:ℚ), 1/2)] [((1:ℚ)/4, 1)]
      (by norm_num) (by norm_num) 0 0 (by norm_num) (by norm_num)⟩

/-- The scalar core of C4: for valid spans not both degenerate at the same
point, the GIoU penalty is non-negative, so `giou1 ≤ iou1`. -/
theorem giou1_le_iou1 (a b : Span) (ha : a.1 ≤ a.2) (hb : b.1 ≤ b.2)
    (hnd : ¬(a.1 = a.2 ∧ b.1 = b.2 ∧ a.1 = b.1)) :
    giou1 a b ≤ iou1 a b := by
  have hM0 : 0 ≤ max a.2 b.2 - min a.1 b.1 := by
    have h1 : a.2 ≤ max a.2 b.2 := le_max_left _ _
    have h2 : min a.1 b.1 ≤ a.1 := min_le_left _ _
    linarith
  have hMpos : 0 < max a.2 b.2 - min a.1 b.1 := by
    rcases hM0.lt_or_eq with h | h
    · exact h
    · exfalso
      have hE : max a.2 b.2 + min a.2 b.2 = a.2 + b.2 := max_add_min _ _
      have hS : max a.1 b.1 + min a.1 b.1 = a.1 + b.1 := max_add_min _ _
      have h1 : a.2 ≤ max a.2 b.2 := le_max_left _ _
      have h2 : b.2 ≤ max a.2 b.2 := le_max_right _ _
      have h3 : min a.1 b.1 ≤ a.1 := min_le_left _ _
      have h4 : min a.1 b.1 ≤ b.1 := min_le_right _ _
      exact hnd ⟨by linarith, by linarith, by linarith⟩
  have hencl : 0 < encloseSpan a b := lt_of_lt_of_le hMpos (le_max_right _ _)
  have hun : unionSpan a b ≤ encloseSpan a b := unionSpan_le_encloseSpan a b ha hb
  have hpen : 0 ≤ (encloseSpan a b - unionSpan a b) / encloseSpan a b :=
    div_nonneg (by linarith) hencl.le
  simp only [giou1]
  linarith

/-- C4: for valid span batches with no pair of spans simultaneously
degenerate at the same point, every entry of `generalized_temporal_iou` is at
most the corresponding IoU entry of `temporal_iou`. -/
theorem c4_giou_le_iou (s1 s2 : List Span)
    (h1 : ∀ p ∈ s1, p.1 ≤ p.2) (h2 : ∀ p ∈ s2, p.1 ≤ p.2)
    (hnd : ∀ a ∈ s1, ∀ b ∈ s2, ¬(a.1 = a.2 ∧ b.1 = b.2 ∧ a.1 = b.1))
    (g : List (List ℚ)) (hg : generalized_temporal_iou s1 s2 = some g)
    (i j : ℕ) (hi : i < s1.length) (hj : j < s2.length) :
    (g.getD i []).getD j 0 ≤ ((temporal_iou s1 s2).1.getD i []).getD j 0 := by
  have hv1 : validSpans s1 = true := (validSpans_iff s1).mpr h1
  have hv2 : validSpans s2 = true := (validSpans_iff s2).mpr h2
  have hgg : g = s1.map (fun a => s2.map (fun b => giou1 a b)) := by
    rw [generalized_temporal_iou, hv1, hv2] at hg
    simpa using hg.symm
  set a := s1.getD i (0, 0) with hadef
  set b := s2.getD j (0, 0) with hbdef
  have hma : a ∈ s1 := by rw [hadef, List.getD_eq_getElem s1 _ hi]; exact List.getElem_mem hi
  have hmb : b ∈ s2 := by rw [hbdef, List.getD_eq_getElem s2 _ hj]; exact List.getElem_mem hj
  have hgij : (g.getD i []).getD j 0 = giou1 a b := by
    rw [hgg, getD_map_lt s1 _ i hi [] (0, 0), getD_map_lt s2 _ j hj 0 (0, 0)]
  have hiou : ((temporal_iou s1 s2).1.getD i []).getD j 0 = iou1 a b := by
    simp only [temporal_iou]
    rw [getD_map_lt s1 _ i hi [] (0, 0), getD_map_lt s2 _ j hj 0 (0, 0)]
  rw [hgij, hiou]
  exact giou1_le_iou1 a b (h1 a hma) (h2 b hmb) (hnd a hma b hmb)

theorem c4_giou_le_iou_witness :
    generalized_temporal_iou [((0:ℚ), 1/2)] [((1:ℚ)/4, 1)] = some [[1/4]] ∧
      (([[(1:ℚ)/4]].getD 0 []).getD 0 0 ≤
        ((temporal_iou [((0:ℚ), 1/2)] [((1:ℚ)/4, 1)]).1.getD 0 []).getD 0 0) := by
  have hg : generalized_temporal_iou [((0:ℚ), 1/2)] [((1:ℚ)/4, 1)] = some [[1/4]] := by
    unfold generalized_temporal_iou
    have hv1 : validSpans [((0:ℚ), 1/2)] = true := by norm_num [validSpans]
    have hv2 : validSpans [((1:ℚ)/4, 1)] = true := by norm_num [validSpans]
    rw [hv1, hv2]
    simp only [Bool.and_self, if_true, List.map_cons, List.map_nil]
    norm_num [giou1, iou1, interSpan, unionSpan, encloseSpan]
  exact ⟨hg, c4_giou_le_iou [((0:ℚ), 1/2)] [((1:ℚ)/4, 1)]
    (by norm_num) (by norm_num) (by norm_num) [[(1:ℚ)/4]] hg 0 0
    (by norm_num) (by norm_num)⟩

/-- C5 (counterexample): in loss1's `S_Diff` the mapped ground-truth span is
clamped with `sdiffTgtClamp`, which does not clamp the start from below: the
mapped ground-truth span `(-1, 0)` at `vid_len = 75` keeps its negative
start, contradicting "the start index is clamped to `≥ 0` … for every mapped
span in both the predicted and the ground-truth batches". -/
theorem c5_tgt_start_not_clamped :
    sdiffTgtClamp (-1, 0) 75 = (-1, 0) ∧ (sdiffTgtClamp (-1, 0) 75).1 < 0 := by
  constructor <;> decide

/-- C5 (amended): the clamping that actually holds.  For the predicted (src)
spans of loss1's `S_Diff` (and `S_GT_P`/`S_Q_P`), the start is clamped into
`[0, vid_len − 1]` and the end is clamped to `≤ vid_len − 1`; for the
ground-truth (tgt) spans, start and end are only clamped to `≤ vid_len − 1`
(the start is not clamped to `≥ 0`); in loss2's `new_loss` index mapping,
both components of both the predicted and the ground-truth spans are clamped
into `[0, clip_len − 1]`. -/
theorem c5_clamping_amended (sp : ℤ × ℤ) (L : ℤ) (hL : 1 ≤ L)
    (s : Span) (l : ℤ) (hl : 1 ≤ l) :
    (0 ≤ (sdiffSrcClamp sp L).1 ∧ (sdiffSrcClamp sp L).1 ≤ L - 1 ∧
      (sdiffSrcClamp sp L).2 ≤ L - 1) ∧
    ((sdiffTgtClamp sp L).1 ≤ L - 1 ∧ (sdiffTgtClamp sp L).2 ≤ L - 1) ∧
    (0 ≤ (Loss2.mapSpan s l).1 ∧ (Loss2.mapSpan s l).1 ≤ l - 1 ∧
      0 ≤ (Loss2.mapSpan s l).2 ∧ (Loss2.mapSpan s l).2 ≤ l - 1) := by
  simp only [sdiffSrcClamp, sdiffTgtClamp, Loss2.mapSpan]
  refine ⟨⟨?_, ?_, ?_⟩, ⟨?_, ?_⟩, ?_, ?_, ?_, ?_⟩ <;> omega

theorem c5_clamping_amended_witness :
    (1 : ℤ) ≤ 75 ∧
      ((0 ≤ (sdiffSrcClamp (-1, 80) 75).1 ∧ (sdiffSrcClamp (-1, 80) 75).1 ≤ 75 - 1 ∧
        (sdiffSrcClamp (-1, 80) 75).2 ≤ 75 - 1) ∧
      ((sdiffTgtClamp (-1, 80) 75).1 ≤ 75 - 1 ∧ (sdiffTgtClamp (-1, 80) 75).2 ≤ 75 - 1) ∧
      (0 ≤ (Loss2.mapSpan ((1:ℚ)/2, 1) 75).1 ∧ (Loss2.mapSpan ((1:ℚ)/2, 1) 75).1 ≤ 75 - 1 ∧
        0 ≤ (Loss2.mapSpan ((1:ℚ)/2, 1) 75).2 ∧ (Loss2.mapSpan ((1:ℚ)/2, 1) 75).2 ≤ 75 - 1)) :=
  ⟨by decide, c5_clamping_amended (-1, 80) 75 (by decide) ((1:ℚ)/2, 1) 75 (by decide)⟩

/-- C6: with duration 150 and clip unit 2, the discrete clip length is
`150 // 2 = 75`, and the normalized span `[0.5, 1.0]` maps under loss2's
clamped rounding to the inclusive clip-index range `[38, 74]`
(`round(0.5·75) = round(37.5) = 38` by round-half-to-even, and
`round(1.0·75) = 75` clamps to `75 − 1 = 74`). -/
theorem c6_duration_mapping :
    (150 : ℤ) / 2 = 75 ∧ Loss2.mapSpan ((1:ℚ)/2, 1) 75 = (38, 74) := by
  constructor
  · decide
  · have h1 : torchRound ((1:ℚ)/2 * ((75:ℤ):ℚ)) = 38 := by
      have e1 : ((1:ℚ)/2 * ((75:ℤ):ℚ)) = 75/2 := by norm_num
      rw [torchRound, e1]
      have hf : ⌊(75:ℚ)/2⌋ = 37 := by norm_num
      rw [hf]
      norm_num
    have h2 : torchRound ((1:ℚ) * ((75:ℤ):ℚ)) = 75 := by
      have e1 : ((1:ℚ) * ((75:ℤ):ℚ)) = 75 := by norm_num
      rw [torchRound, e1]
      norm_num
    simp only [Loss2.mapSpan, h1, h2]
    decide

theorem floor_le_torchRound (x : ℚ) : ⌊x⌋ ≤ torchRound x := by
  rw [torchRound]
  split_ifs <;> omega

theorem torchRound_le_floor_add_one (x : ℚ) : torchRound x ≤ ⌊x⌋ + 1 := by
  rw [torchRound]
  split_ifs <;> omega

theorem torchRound_mono {x y : ℚ} (h : x ≤ y) : torchRound x ≤ torchRound y := by
  rcases lt_or_eq_of_le (Int.floor_le_floor h) with hf | hf
  · calc torchRound x ≤ ⌊x⌋ + 1 := torchRound_le_floor_add_one x
      _ ≤ ⌊y⌋ := by omega
      _ ≤ torchRound y := floor_le_torchRound y
  · rw [torchRound, torchRound, ← hf]
    have hfr : x - (⌊x⌋ : ℚ) ≤ y - (⌊x⌋ : ℚ) := by linarith
    by_cases hx1 : x - (⌊x⌋ : ℚ) < 1/2
    · rw [if_pos hx1]
      split_ifs <;> omega
    · by_cases hx2 : x - (⌊x⌋ : ℚ) = 1/2
      · rw [if_neg hx1, if_pos hx2]
        have hy1 : ¬ (y - (⌊x⌋ : ℚ) < 1/2) := by
          push_neg
          linarith [not_lt.mp hx1]
        rw [if_neg hy1]
        by_cases hy2 : y - (⌊x⌋ : ℚ) = 1/2
        · rw [if_pos hy2]
        · rw [if_neg hy2]
          split_ifs <;> omega
      · have hx3 : 1/2 < x - (⌊x⌋ : ℚ) := lt_of_le_of_ne (not_lt.mp hx1) (Ne.symm hx2)
        have hy1 : ¬ (y - (⌊x⌋ : ℚ) < 1/2) := by push_neg; linarith
        have hy2 : ¬ (y - (⌊x⌋ : ℚ) = 1/2) := by intro hh; linarith
        rw [if_neg hx1, if_neg hx2, if_neg hy1, if_neg hy2]

theorem roundSpan_valid (s : Span) (L : ℕ) (h : s.1 ≤ s.2) :
    (roundSpan s L).1 ≤ (roundSpan s L).2 := by
  simp only [roundSpan]
  have hm : s.1 * (L : ℚ) ≤ s.2 * (L : ℚ) :=
    mul_le_mul_of_nonneg_right h (by positivity)
  exact_mod_cast torchRound_mono hm

/-- C1: for paired span batches with `end ≥ start` in every row, `new_loss`
with an empty set of enabled term identifiers returns exactly
`1 − diagonal IoU` per example — in the loss1 snapshot (where the assert on
the rounded spans passes by monotonicity of round-half-even) and in the
loss2 snapshot (whose returned loss is the first component of its result). -/
theorem c1_new_loss_empty_terms (spans1 spans2 : List Span)
    (logits : List (List ℚ)) (vid_feat : List (List (List ℚ)))
    (idx : List ℕ) (durations : List ℤ)
    (h1 : ∀ p ∈ spans1, p.1 ≤ p.2) (h2 : ∀ p ∈ spans2, p.1 ≤ p.2) :
    Loss1.new_loss [] spans1 spans2 logits vid_feat idx =
      some ((diag (temporal_iou spans1 spans2).1).map (fun q => 1 - q),
        diag (temporal_iou spans1 spans2).1) ∧
    (Loss2.new_loss [] spans1 spans2 logits vid_feat idx durations).map Prod.fst =
      some ((diag (temporal_iou spans1 spans2).1).map (fun q => 1 - q)) := by
  constructor
  · have hv1 : validSpans (spans1.map (fun s => roundSpan s (shape1 logits))) = true := by
      rw [validSpans_iff]
      intro p hp
      simp only [List.mem_map] at hp
      obtain ⟨s, hs, rfl⟩ := hp
      exact roundSpan_valid s _ (h1 s hs)
    have hv2 : validSpans (spans2.map (fun s => roundSpan s (shape1 logits))) = true := by
      rw [validSpans_iff]
      intro p hp
      simp only [List.mem_map] at hp
      obtain ⟨s, hs, rfl⟩ := hp
      exact roundSpan_valid s _ (h2 s hs)
    simp [Loss1.new_loss, hv1, hv2]
  · have hv1 : validSpans spans1 = true := (validSpans_iff spans1).mpr h1
    have hv2 : validSpans spans2 = true := (validSpans_iff spans2).mpr h2
    simp [Loss2.new_loss, hv1, hv2]

theorem c1_new_loss_empty_terms_witness :
    (∀ p ∈ [((0:ℚ), 1/2)], p.1 ≤ p.2) ∧ (∀ p ∈ [((1:ℚ)/4, 3/4)], p.1 ≤ p.2) ∧
    (Loss1.new_loss [] [((0:ℚ), 1/2)] [((1:ℚ)/4, 3/4)] [[1, 0]] [[[1]]] [0] =
      some ((diag (temporal_iou [((0:ℚ), 1/2)] [((1:ℚ)/4, 3/4)]).1).map (fun q => 1 - q),
        diag (temporal_iou [((0:ℚ), 1/2)] [((1:ℚ)/4, 3/4)]).1) ∧
    (Loss2.new_loss [] [((0:ℚ), 1/2)] [((1:ℚ)/4, 3/4)] [[1, 0]] [[[1]]] [0] [150]).map
        Prod.fst =
      some ((diag (temporal_iou [((0:ℚ), 1/2)] [((1:ℚ)/4, 3/4)]).1).map (fun q => 1 - q))) :=
  ⟨by norm_num, by norm_num,
    c1_new_loss_empty_terms [((0:ℚ), 1/2)] [((1:ℚ)/4, 3/4)] [[1, 0]] [[[1]]] [0] [150]
      (by norm_num) (by norm_num)⟩

/-! ## Grouping lemmas for the identity index mapping -/

theorem filter_zip_range' {α : Type} (l : List α) (i k : ℕ) :
    ((List.range' k l.length).zip l).filter (fun p => p.1 == i) =
      if k ≤ i then ((l.drop (i - k)).take 1).map (fun a => (i, a)) else [] := by
  induction l generalizing k with
  | nil => simp
  | cons a t ih =>
    rw [List.length_cons, List.range'_succ, List.zip_cons_cons, List.filter_cons]
    by_cases hk : k = i
    · subst hk
      simp only [beq_self_eq_true, if_true]
      rw [ih (k + 1), if_neg (by omega), if_pos le_rfl, Nat.sub_self]
      simp
    · have hbeq : (((k, a) : ℕ × α).1 == i) = false := by
        simp only [beq_eq_false_iff_ne, ne_eq]
        exact hk
      rw [hbeq]
      simp only [Bool.false_eq_true, if_false]
      rw [ih (k + 1)]
      by_cases hki : k ≤ i
      · have h1 : k + 1 ≤ i := by omega
        rw [if_pos h1, if_pos hki]
        have h2 : i - k = (i - (k + 1)) + 1 := by omega
        rw [h2, List.drop_succ_cons]
      · rw [if_neg (by omega), if_neg hki]

theorem group_range_getD {α : Type} (xs : List α) (n i : ℕ) (hn : xs.length = n)
    (hi : i < n) (d : α) :
    (group (List.range n) xs n).getD i [] = [xs.getD i d] := by
  rw [group, getD_map_lt (List.range n) _ i (by simpa using hi) [] 0]
  have hr : (List.range n).getD i 0 = i := by
    rw [List.getD_eq_getElem _ _ (by simpa using hi)]
    exact List.getElem_range i _
  have hilen : i < xs.length := by omega
  rw [hr, List.range_eq_range', ← hn, filter_zip_range', if_pos (Nat.zero_le i),
    Nat.sub_zero, List.drop_eq_getElem_cons hilen, List.take_succ_cons,
    List.take_zero, List.map_cons, List.map_nil, List.map_cons, List.map_nil,
    List.getD_eq_getElem _ _ hilen]

theorem flatMap_range_eq_map {β : Type} (n : ℕ) (f : ℕ → List β) (g : ℕ → β)
    (h : ∀ i, i < n → f i = [g i]) :
    (List.range n).flatMap f = (List.range n).map g := by
  induction n with
  | zero => simp
  | succ m ih =>
    rw [List.range_succ, List.flatMap_append, List.map_append,
      ih (fun i hi => h i (by omega))]
    simp [h m (by omega)]

theorem getD_zipWith (f : ℚ → ℚ → ℚ) (l1 l2 : List ℚ) (k : ℕ)
    (h1 : k < l1.length) (h2 : k < l2.length) :
    (List.zipWith f l1 l2).getD k 0 = f (l1.getD k 0) (l2.getD k 0) := by
  rw [List.getD_eq_getElem _ _ (by rw [List.length_zipWith]; omega),
    List.getElem_zipWith, List.getD_eq_getElem _ _ h1, List.getD_eq_getElem _ _ h2]

theorem zipWith_mul_zero_right (l1 l2 : List ℚ) (h : ∀ d ∈ l2, d = 0) :
    ∀ x ∈ List.zipWith (fun io d => (1 - io) * d) l1 l2, x = 0 := by
  induction l1 generalizing l2 with
  | nil => simp
  | cons a t ih =>
    cases l2 with
    | nil => simp
    | cons b t2 =>
      intro x hx
      rw [List.zipWith_cons_cons] at hx
      rcases List.mem_cons.mp hx with h1 | h1
      · rw [h1, h b (List.mem_cons_self _ _), mul_zero]
      · exact ih t2 (fun d hd => h d (List.mem_cons_of_mem _ hd)) x h1

theorem sdiffSrcClamp_id (x : ℤ × ℤ) (L : ℤ) (h1 : 0 ≤ x.1) (h2 : x.1 ≤ x.2)
    (h3 : x.2 ≤ L - 1) : sdiffSrcClamp x L = x := by
  obtain ⟨a, b⟩ := x
  simp only [sdiffSrcClamp, Prod.mk.injEq]
  constructor <;> omega

theorem sdiffTgtClamp_eq_src (x : ℤ × ℤ) (L : ℤ) (h : 0 ≤ x.1) :
    sdiffTgtClamp x L = sdiffSrcClamp x L := by
  obtain ⟨a, b⟩ := x
  simp only [sdiffTgtClamp, sdiffSrcClamp, Prod.mk.injEq]
  refine ⟨by omega, ?_⟩
  trivial

theorem getD_range (n k : ℕ) (h : k < n) : (List.range n).getD k 0 = k := by
  rw [List.getD_eq_getElem _ _ (by simpa using h)]
  exact List.getElem_range k _

/-- C9: with the identity batch-to-video mapping, when each mapped predicted
index span equals its mapped ground-truth index span and lies within the
valid clip-index bounds, every entry of loss1's `S_Diff` is exactly 0 (the
two means coincide), and every entry of loss1's `S_Q_P` equals
`(1 − iou) * (1 − mean similarity over the predicted range)` — an expression
in which the ground-truth spans do not occur (indeed `S_Q_P` takes no
ground-truth argument). -/
theorem c9_identical_mapped_spans (iou : List ℚ) (spans1 spans2 : List Span)
    (logits : List (List ℚ))
    (heq : spans1 = spans2)
    (hlen : spans1.length = logits.length)
    (hb : ∀ s ∈ spans1, 0 ≤ (intSpan s).1 ∧ (intSpan s).1 ≤ (intSpan s).2 ∧
      (intSpan s).2 ≤ ((shape1 logits : ℕ) : ℤ) - 1) :
    (∀ x ∈ Loss1.S_Diff iou spans1 spans2 logits (List.range logits.length), x = 0) ∧
    (∀ k, k < logits.length → k < iou.length →
      (Loss1.S_Q_P iou spans1 logits (List.range logits.length)).getD k 0 =
        (1 - iou.getD k 0) *
          (1 - listMean (pySlice (logits.getD k [])
            (intSpan (spans1.getD k (0, 0))).1
            ((intSpan (spans1.getD k (0, 0))).2 + 1)))) := by
  subst heq
  have hmaplen : (spans1.map intSpan).length = logits.length := by simpa using hlen
  constructor
  · simp only [Loss1.S_Diff]
    apply zipWith_mul_zero_right
    intro d hd
    rw [List.mem_flatMap] at hd
    obtain ⟨i, hi, hdi⟩ := hd
    rw [List.mem_range] at hi
    rw [group_range_getD (spans1.map intSpan) _ i hmaplen hi ((0 : ℤ), (0 : ℤ))] at hdi
    set x := (spans1.map intSpan).getD i ((0 : ℤ), (0 : ℤ)) with hx
    have hmem : spans1.getD i ((0 : ℚ), (0 : ℚ)) ∈ spans1 := by
      rw [List.getD_eq_getElem _ _ (by omega)]
      exact List.getElem_mem _
    have hx0 : 0 ≤ x.1 := by
      rw [hx, getD_map_lt spans1 intSpan i (by omega) _ ((0 : ℚ), (0 : ℚ))]
      exact (hb _ hmem).1
    rw [List.zip_cons_cons, List.zip_nil_right, List.map_cons, List.map_nil] at hdi
    rw [List.mem_singleton] at hdi
    rw [hdi, sdiffTgtClamp_eq_src x _ hx0, sub_self, abs_zero]
  · intro k hk hki
    simp only [Loss1.S_Q_P]
    rw [flatMap_range_eq_map logits.length _
      (fun i => listMean (pySlice (logits.getD i [])
        (intSpan (spans1.getD i ((0 : ℚ), (0 : ℚ)))).1
        ((intSpan (spans1.getD i ((0 : ℚ), (0 : ℚ)))).2 + 1))) ?hfun]
    case hfun =>
      intro i hi
      rw [group_range_getD (spans1.map intSpan) _ i hmaplen hi ((0 : ℤ), (0 : ℤ)),
        getD_map_lt spans1 intSpan i (by omega) _ ((0 : ℚ), (0 : ℚ))]
      have hmem : spans1.getD i ((0 : ℚ), (0 : ℚ)) ∈ spans1 := by
        rw [List.getD_eq_getElem _ _ (by omega)]
        exact List.getElem_mem _
      obtain ⟨hb1, hb2, hb3⟩ := hb _ hmem
      rw [List.map_cons, List.map_nil, sdiffSrcClamp_id _ _ hb1 hb2 hb3]
    rw [getD_zipWith _ _ _ k hki (by simpa using hk),
      getD_map_lt (List.range logits.length) _ k (by simpa using hk) 0 0,
      getD_range logits.length k hk]

theorem c9_identical_mapped_spans_witness :
    ([((1:ℚ), 2)] = ([((1:ℚ), 2)] : List Span)) ∧
    ([((1:ℚ), 2)] : List Span).length = [[(1:ℚ)/2, 1/2, 1/2]].length ∧
    (∀ s ∈ [((1:ℚ), 2)], 0 ≤ (intSpan s).1 ∧ (intSpan s).1 ≤ (intSpan s).2 ∧
      (intSpan s).2 ≤ ((shape1 [[(1:ℚ)/2, 1/2, 1/2]] : ℕ) : ℤ) - 1) ∧
    ((∀ x ∈ Loss1.S_Diff [(1:ℚ)/2] [((1:ℚ), 2)] [((1:ℚ), 2)] [[(1:ℚ)/2, 1/2, 1/2]]
        (List.range [[(1:ℚ)/2, 1/2, 1/2]].length), x = 0) ∧
      (∀ k, k < [[(1:ℚ)/2, 1/2, 1/2]].length → k < [(1:ℚ)/2].length →
        (Loss1.S_Q_P [(1:ℚ)/2] [((1:ℚ), 2)] [[(1:ℚ)/2, 1/2, 1/2]]
            (List.range [[(1:ℚ)/2, 1/2, 1/2]].length)).getD k 0 =
          (1 - [(1:ℚ)/2].getD k 0) *
            (1 - listMean (pySlice ([[(1:ℚ)/2, 1/2, 1/2]].getD k [])
              (intSpan (([((1:ℚ), 2)] : List Span).getD k (0, 0))).1
              ((intSpan (([((1:ℚ), 2)] : List Span).getD k (0, 0))).2 + 1))))) :=
  ⟨rfl, by norm_num,
    by
      intro s hs
      rw [List.mem_singleton] at hs
      subst hs
      refine ⟨?_, ?_, ?_⟩ <;> norm_num [intSpan, truncInt, shape1],
    c9_identical_mapped_spans [(1:ℚ)/2] [((1:ℚ), 2)] [((1:ℚ), 2)] [[(1:ℚ)/2, 1/2, 1/2]]
      rfl (by norm_num)
      (by
        intro s hs
        rw [List.mem_singleton] at hs
        subst hs
        refine ⟨?_, ?_, ?_⟩ <;> norm_num [intSpan, truncInt, shape1])⟩
